import Mathlib

/-!
Shallow embedding of the adaptive crf-search controller from
`src/command/crf_search.rs` (ab-av1).

Modelling conventions:
* `u8` values (crf bounds and candidates) are `ℕ` with every 8-bit
  addition made explicit as `% 256` (release-profile wrapping semantics).
* `f32`/`f64` quantities (vmaf scores, size percentages, progress
  fractions) are modelled as `ℚ`; `f32::round` is round-half-away-from-zero
  and the `as u8` float-to-integer cast saturates into `[0, 255]`.
* The external measurement primitive `sample_encode::run` is the oracle:
  one `Except Unit Output` result per 1-based iteration index.  A probe
  error aborts the whole search (`Outcome.probeError`).
* The unbounded `for run in 1..` loop is given explicit fuel; running out
  of fuel yields `none` for the outcome while still recording the probes
  that were issued.
-/

namespace CrfSearch

/-- Modelled from the spec: `sample_encode::Output` (the ProbeResult of
§3) is defined outside `src/`; per the spec it carries the quality score,
the predicted output size in bytes, the predicted size as percent of the
input, and the predicted full-encode duration.  The search controller
reads only `vmaf` and `predicted_encode_percent`. -/
structure Output where
  vmaf : ℚ
  predicted_encode_size : ℕ
  predicted_encode_percent : ℚ
  predicted_encode_time : ℚ
deriving DecidableEq, Repr

/-- One completed probe, mirroring `struct Sample { enc, crf, samples }`. -/
structure Sample where
  enc : Output
  crf : ℕ
  samples : ℕ
deriving DecidableEq, Repr

/-- The configuration surface of `run` (the fields of `Args` the search
algorithm reads). -/
structure Cfg where
  min_vmaf : ℚ
  max_encoded_percent : ℚ
  min_crf : ℕ
  max_crf : ℕ
  samples : ℕ
deriving DecidableEq, Repr

/-- Rust `Iterator::min_by_key` on the crf key: the FIRST element with
minimal key (ties keep the earlier element). -/
def minByCrf? : List Sample → Option Sample
  | [] => none
  | s :: rest =>
    match minByCrf? rest with
    | none => some s
    | some m => if s.crf ≤ m.crf then some s else some m

/-- Rust `Iterator::max_by_key` on the crf key: the LAST element with
maximal key (ties keep the later element). -/
def maxByCrf? : List Sample → Option Sample
  | [] => none
  | s :: rest =>
    match maxByCrf? rest with
    | none => some s
    | some m => if m.crf < s.crf then some s else some m

/-- Rust `f32::round`: round half away from zero. -/
def roundHalfAway (x : ℚ) : ℤ :=
  if 0 ≤ x then ⌊x + 1/2⌋ else -⌊-x + 1/2⌋

/-- Rust float → `u8` cast: saturate into `[0, 255]` then truncate. -/
def toU8sat (x : ℤ) : ℕ := (min 255 (max 0 x)).toNat

/-- The `assert!` precondition of `vmaf_lerp_crf`: the worse point scores
at most the target and strictly below the better point, which sits at a
strictly smaller crf. -/
def lerpOk (min_vmaf : ℚ) (worse_q better_q : Sample) : Prop :=
  worse_q.enc.vmaf ≤ min_vmaf ∧ worse_q.enc.vmaf < better_q.enc.vmaf ∧
    better_q.crf < worse_q.crf

instance (min_vmaf : ℚ) (worse_q better_q : Sample) :
    Decidable (lerpOk min_vmaf worse_q better_q) := by
  unfold lerpOk; infer_instance

/-- The unclamped interpolation of `vmaf_lerp_crf`:
`(worse.crf as f32 - crf_diff as f32 * vmaf_factor).round() as u8`. -/
def vmaf_lerp_raw (min_vmaf : ℚ) (worse_q better_q : Sample) : ℕ :=
  let vmaf_diff := better_q.enc.vmaf - worse_q.enc.vmaf
  let vmaf_factor := (min_vmaf - worse_q.enc.vmaf) / vmaf_diff
  let crf_diff := worse_q.crf - better_q.crf
  toU8sat (roundHalfAway ((worse_q.crf : ℚ) - (crf_diff : ℚ) * vmaf_factor))

/-- The body of `vmaf_lerp_crf` (without the leading `assert!`, which the caller
`searchDecide` checks): the interpolated crf clamped to at least
`better.crf + 1` (u8 addition). -/
def vmaf_lerp_crf (min_vmaf : ℚ) (worse_q better_q : Sample) : ℕ :=
  max (vmaf_lerp_raw min_vmaf worse_q better_q) ((better_q.crf + 1) % 256)

/-- Per-iteration sample-count selection (`args.samples = match run`),
returning the chosen sample count and the updated `quick_3rd_run` flag. -/
def selectSamples (cfg : Cfg) (run : ℕ) (crf : ℕ) (quick_3rd_run : Bool) :
    ℕ × Bool :=
  if run = 1 ∨ run = 2 then (1, quick_3rd_run)
  else if run = 3 ∧ (crf = cfg.min_crf ∨ crf = cfg.max_crf) then (1, true)
  else (cfg.samples, quick_3rd_run)

/-- What one loop iteration decides after recording the probe. -/
inductive Decision
  | cont (nextCrf : ℕ)
  | accept (best : Sample)
  | giveUp (last : Sample)
  | panicked
deriving DecidableEq, Repr

/-- The `sample.enc.vmaf > *min_vmaf` block of `run`: the quality-met
branch.  `attempts` is the history INCLUDING the just-pushed `sample`. -/
def decideMet (cfg : Cfg) (run : ℕ) (attempts : List Sample)
    (sample : Sample) : Decision :=
  if 2 < run ∧ sample.enc.predicted_encode_percent < cfg.max_encoded_percent ∧
      sample.enc.vmaf < cfg.min_vmaf + (run : ℚ) * (1/5) then
    .accept sample
  else
    match minByCrf? (attempts.filter fun s => sample.crf < s.crf) with
    | some upper =>
      if upper.crf = (sample.crf + 1) % 256 then .accept sample
      else if lerpOk cfg.min_vmaf upper sample then
        .cont (vmaf_lerp_crf cfg.min_vmaf upper sample)
      else .panicked
    | none =>
      if sample.crf = cfg.max_crf then .accept sample
      else if run = 1 ∧ (sample.crf + 1) % 256 < cfg.max_crf then
        .cont (((sample.crf + cfg.max_crf) % 256) / 2)
      else .cont cfg.max_crf

/-- The `else` ("not good enough") block of `run`: the quality-not-met
branch. -/
def decideUnmet (cfg : Cfg) (run : ℕ) (attempts : List Sample)
    (sample : Sample) : Decision :=
  if cfg.max_encoded_percent < sample.enc.predicted_encode_percent ∨
      sample.crf = cfg.min_crf then
    .giveUp sample
  else
    match maxByCrf? (attempts.filter fun s => s.crf < sample.crf) with
    | some lower =>
      if (lower.crf + 1) % 256 = sample.crf then .accept lower
      else if lerpOk cfg.min_vmaf sample lower then
        .cont (vmaf_lerp_crf cfg.min_vmaf sample lower)
      else .panicked
    | none =>
      if run = 1 ∧ (cfg.min_crf + 1) % 256 < sample.crf then
        .cont (((cfg.min_crf + sample.crf) % 256) / 2)
      else .cont cfg.min_crf

/-- The per-iteration decision of `run` once the probe result is in. -/
def searchDecide (cfg : Cfg) (run : ℕ) (attempts : List Sample)
    (sample : Sample) : Decision :=
  if cfg.min_vmaf < sample.enc.vmaf then decideMet cfg run attempts sample
  else decideUnmet cfg run attempts sample

/-- One issued probe as observable from outside: candidate crf, sample
count, and the `quick_3rd_run` flag as it stood during that iteration. -/
structure ProbeRec where
  crf : ℕ
  samples : ℕ
  quick : Bool
deriving DecidableEq, Repr

/-- How one whole search invocation ends. -/
inductive Outcome
  | found (best : Sample)
  | infeasible (last : Sample)
  | probeError
  | panicked
  | configError
deriving DecidableEq, Repr

/-- The measurement primitive: one result per 1-based iteration. -/
def Oracle : Type := ℕ → Except Unit Output

/-- The `for run in 1..` loop of `run`, with fuel.  Returns the outcome
(`none` when fuel ran out) together with the list of issued probes. -/
def searchGo (cfg : Cfg) (oracle : Oracle) :
    ℕ → ℕ → ℕ → List Sample → Bool → Option Outcome × List ProbeRec
  | 0, _, _, _, _ => (none, [])
  | fuel + 1, run, crf, attempts, quick =>
    let sq := selectSamples cfg run crf quick
    match oracle run with
    | .error _ => (some .probeError, [⟨crf, sq.1, sq.2⟩])
    | .ok enc =>
      let sample : Sample := ⟨enc, crf, sq.1⟩
      let attempts' := attempts ++ [sample]
      match searchDecide cfg run attempts' sample with
      | .cont c1 =>
        let r := searchGo cfg oracle fuel (run + 1) c1 attempts' sq.2
        (r.1, ⟨crf, sq.1, sq.2⟩ :: r.2)
      | .accept s => (some (.found s), [⟨crf, sq.1, sq.2⟩])
      | .giveUp s => (some (.infeasible s), [⟨crf, sq.1, sq.2⟩])
      | .panicked => (some .panicked, [⟨crf, sq.1, sq.2⟩])

/-- The whole `run` function: the `ensure!` bounds check, then the loop
started at the u8 midpoint with empty history and a cleared flag. -/
def search (cfg : Cfg) (oracle : Oracle) (fuel : ℕ) :
    Option Outcome × List ProbeRec :=
  if cfg.min_crf ≤ cfg.max_crf then
    searchGo cfg oracle fuel 1 (((cfg.min_crf + cfg.max_crf) % 256) / 2) [] false
  else (some .configError, [])

/-- The guessed total probe-units of `guess_progress`. -/
def guess_total_samples (run : ℕ) (quick_3rd_run : Bool) : ℕ :=
  if 1 ≤ run ∧ run ≤ 4 then
    if quick_3rd_run then 1 + 1 + 1 + 3 else 1 + 1 + 3 + 3
  else
    if quick_3rd_run then 3 + (run - 3) * 3 else 2 + (run - 2) * 3

/-- Function `guess_progress`: completed units plus the weighted current fraction,
scaled to the `BAR_LEN = 1000` range. -/
def guess_progress (run : ℕ) (sample_progress : ℚ) (quick_3rd_run : Bool) : ℚ :=
  (if run = 1 then sample_progress
   else if run = 2 then 1 + sample_progress
   else if run = 3 ∧ quick_3rd_run then 2 + sample_progress
   else if quick_3rd_run then 3 + ((run - 4 : ℕ) : ℚ) * 3 + sample_progress * 3
   else 2 + ((run - 3 : ℕ) : ℚ) * 3 + sample_progress * 3) * 1000 /
    ((guess_total_samples run quick_3rd_run : ℕ) : ℚ)

/-! ### Concrete fixtures used by counterexamples and witnesses -/

/-- The default configuration of `Args` (min-vmaf 95, max 80%, crf 10..55,
3 samples). -/
def cfgDefault : Cfg := ⟨95, 80, 10, 55, 3⟩

/-- A probe result that scores exactly the quality target. -/
def sampleEq : Sample := ⟨⟨95, 0, 50, 0⟩, 10, 1⟩

/-- A config whose u8 bound sum wraps: 65 + 200 = 265 ≡ 9 (mod 256). -/
def cfgWrap : Cfg := ⟨95, 80, 65, 200, 3⟩

/-- Probe results driving `cfgWrap` to accept an out-of-bounds crf. -/
def oracleWrap : Oracle := fun k =>
  match k with
  | 1 => .ok ⟨99, 0, 50, 0⟩
  | 2 => .ok ⟨90, 0, 50, 0⟩
  | 3 => .ok ⟨953/10, 0, 50, 0⟩
  | _ => .error ()

/-- Project the accepted crf out of a search outcome. -/
def foundCrf : Option Outcome → Option ℕ
  | some (.found s) => some s.crf
  | _ => none

/-- Interpolation endpoints with `worse.vmaf` exactly at the target. -/
def worseEq : Sample := ⟨⟨95, 0, 50, 0⟩, 20, 1⟩

/-- Interpolation endpoints with `worse.vmaf` exactly at the target. -/
def betterEq : Sample := ⟨⟨98, 0, 50, 0⟩, 10, 1⟩

/-- Probe results that drive `cfgDefault` onto the `min_crf` boundary at
iteration 3 (setting `quick_3rd_run`) and then into the lower-adjacent
acceptance branch at iteration 5. -/
def oracleQuick : Oracle := fun k =>
  match k with
  | 1 => .ok ⟨92, 0, 50, 0⟩
  | 2 => .ok ⟨93, 0, 50, 0⟩
  | 3 => .ok ⟨98, 0, 50, 0⟩
  | 4 => .ok ⟨5, 0, 50, 0⟩
  | 5 => .ok ⟨94, 0, 50, 0⟩
  | _ => .error ()

/-- The attempts recorded along the `cfgWrap`/`oracleWrap` trajectory. -/
def wA1 : Sample := ⟨⟨99, 0, 50, 0⟩, 4, 1⟩

/-- The attempts recorded along the `cfgWrap`/`oracleWrap` trajectory. -/
def wA2 : Sample := ⟨⟨90, 0, 50, 0⟩, 102, 1⟩

/-- The attempts recorded along the `cfgWrap`/`oracleWrap` trajectory. -/
def wA3 : Sample := ⟨⟨953/10, 0, 50, 0⟩, 48, 3⟩

/-- The attempts recorded along the `cfgDefault`/`oracleQuick` trajectory. -/
def qB1 : Sample := ⟨⟨92, 0, 50, 0⟩, 32, 1⟩

/-- The attempts recorded along the `cfgDefault`/`oracleQuick` trajectory. -/
def qB2 : Sample := ⟨⟨93, 0, 50, 0⟩, 21, 1⟩

/-- The attempts recorded along the `cfgDefault`/`oracleQuick` trajectory. -/
def qB3 : Sample := ⟨⟨98, 0, 50, 0⟩, 10, 1⟩

/-- The attempts recorded along the `cfgDefault`/`oracleQuick` trajectory. -/
def qB4 : Sample := ⟨⟨5, 0, 50, 0⟩, 17, 3⟩

/-- The attempts recorded along the `cfgDefault`/`oracleQuick` trajectory. -/
def qB5 : Sample := ⟨⟨94, 0, 50, 0⟩, 11, 3⟩

/-- The states the search loop can actually visit: iteration counter,
current candidate, recorded history and `quick_3rd_run` flag. -/
inductive Reaches (cfg : Cfg) (oracle : Oracle) : ℕ → ℕ → List Sample → Bool → Prop
  | init :
      cfg.min_crf ≤ cfg.max_crf →
      Reaches cfg oracle 1 (((cfg.min_crf + cfg.max_crf) % 256) / 2) [] false
  | step (run c : ℕ) (att : List Sample) (q : Bool) (enc : Output) (c1 : ℕ) :
      Reaches cfg oracle run c att q →
      oracle run = Except.ok enc →
      searchDecide cfg run (att ++ [⟨enc, c, (selectSamples cfg run c q).1⟩])
        ⟨enc, c, (selectSamples cfg run c q).1⟩ = Decision.cont c1 →
      Reaches cfg oracle (run + 1) c1
        (att ++ [⟨enc, c, (selectSamples cfg run c q).1⟩])
        (selectSamples cfg run c q).2

/-! ### Basic lemmas about the nearest-neighbour queries -/

theorem minByCrf?_eq_none {l : List Sample} : minByCrf? l = none ↔ l = [] := by
  cases l with
  | nil => simp [minByCrf?]
  | cons s rest =>
    simp only [minByCrf?]
    cases hr : minByCrf? rest with
    | none =>
      constructor
      · intro h; exact Option.noConfusion h
      · intro h; exact List.noConfusion h
    | some m0 =>
      show (if s.crf ≤ m0.crf then some s else some m0) = none ↔ s :: rest = []
      constructor
      · intro h; split at h <;> exact Option.noConfusion h
      · intro h; exact List.noConfusion h

theorem minByCrf?_mem : ∀ {l : List Sample} {m : Sample},
    minByCrf? l = some m → m ∈ l := by
  intro l
  induction l with
  | nil => intro m h; cases h
  | cons s rest ih =>
    intro m
    simp only [minByCrf?]
    cases hr : minByCrf? rest with
    | none =>
      intro h
      simp only [Option.some.injEq] at h
      subst h; exact .head _
    | some m0 =>
      show (if s.crf ≤ m0.crf then some s else some m0) = some m → m ∈ s :: rest
      intro h
      split at h <;> simp only [Option.some.injEq] at h <;> subst h
      · exact .head _
      · exact List.mem_cons_of_mem _ (ih hr)

theorem minByCrf?_le : ∀ {l : List Sample} {m : Sample},
    minByCrf? l = some m → ∀ s ∈ l, m.crf ≤ s.crf := by
  intro l
  induction l with
  | nil => intro m h; cases h
  | cons a rest ih =>
    intro m
    simp only [minByCrf?]
    cases hr : minByCrf? rest with
    | none =>
      intro h s hs
      simp only [Option.some.injEq] at h
      subst h
      rcases List.mem_cons.mp hs with rfl | hs'
      · exact le_refl _
      · rw [minByCrf?_eq_none.mp hr] at hs'; cases hs'
    | some m0 =>
      show (if a.crf ≤ m0.crf then some a else some m0) = some m →
        ∀ s ∈ a :: rest, m.crf ≤ s.crf
      intro h s hs
      split at h <;> simp only [Option.some.injEq] at h <;> subst h
      · rename_i hle
        rcases List.mem_cons.mp hs with rfl | hs'
        · exact le_refl _
        · exact le_trans hle (ih hr s hs')
      · rename_i hgt
        rcases List.mem_cons.mp hs with rfl | hs'
        · omega
        · exact ih hr s hs'

theorem maxByCrf?_eq_none {l : List Sample} : maxByCrf? l = none ↔ l = [] := by
  cases l with
  | nil => simp [maxByCrf?]
  | cons s rest =>
    simp only [maxByCrf?]
    cases hr : maxByCrf? rest with
    | none =>
      constructor
      · intro h; exact Option.noConfusion h
      · intro h; exact List.noConfusion h
    | some m0 =>
      show (if m0.crf < s.crf then some s else some m0) = none ↔ s :: rest = []
      constructor
      · intro h; split at h <;> exact Option.noConfusion h
      · intro h; exact List.noConfusion h

theorem maxByCrf?_mem : ∀ {l : List Sample} {m : Sample},
    maxByCrf? l = some m → m ∈ l := by
  intro l
  induction l with
  | nil => intro m h; cases h
  | cons s rest ih =>
    intro m
    simp only [maxByCrf?]
    cases hr : maxByCrf? rest with
    | none =>
      intro h
      simp only [Option.some.injEq] at h
      subst h; exact .head _
    | some m0 =>
      show (if m0.crf < s.crf then some s else some m0) = some m → m ∈ s :: rest
      intro h
      split at h <;> simp only [Option.some.injEq] at h <;> subst h
      · exact .head _
      · exact List.mem_cons_of_mem _ (ih hr)

theorem maxByCrf?_ge : ∀ {l : List Sample} {m : Sample},
    maxByCrf? l = some m → ∀ s ∈ l, s.crf ≤ m.crf := by
  intro l
  induction l with
  | nil => intro m h; cases h
  | cons a rest ih =>
    intro m
    simp only [maxByCrf?]
    cases hr : maxByCrf? rest with
    | none =>
      intro h s hs
      simp only [Option.some.injEq] at h
      subst h
      rcases List.mem_cons.mp hs with rfl | hs'
      · exact le_refl _
      · rw [maxByCrf?_eq_none.mp hr] at hs'; cases hs'
    | some m0 =>
      show (if m0.crf < a.crf then some a else some m0) = some m →
        ∀ s ∈ a :: rest, s.crf ≤ m.crf
      intro h s hs
      split at h <;> simp only [Option.some.injEq] at h <;> subst h
      · rename_i hlt
        rcases List.mem_cons.mp hs with rfl | hs'
        · exact le_refl _
        · exact le_trans (ih hr s hs') (by omega)
      · rename_i hge
        rcases List.mem_cons.mp hs with rfl | hs'
        · omega
        · exact ih hr s hs'

theorem maxByCrf?_append_last : ∀ {l : List Sample} {a : Sample},
    (∀ s ∈ l, s.crf ≤ a.crf) → maxByCrf? (l ++ [a]) = some a := by
  intro l
  induction l with
  | nil => intro a _; rfl
  | cons s rest ih =>
    intro a h
    have hs : s.crf ≤ a.crf := h s (.head _)
    have ih' := ih fun x hx => h x (List.mem_cons_of_mem _ hx)
    show maxByCrf? (s :: (rest ++ [a])) = some a
    simp only [maxByCrf?]
    rw [ih']
    show (if a.crf < s.crf then some s else some a) = some a
    rw [if_neg (by omega)]

/-! ### Bounds on the quality-linear interpolation -/

theorem roundHalfAway_le_nat {x : ℚ} {n : ℕ} (h : x ≤ (n : ℚ)) :
    roundHalfAway x ≤ (n : ℤ) := by
  unfold roundHalfAway
  split
  · have : ⌊x + 1/2⌋ < (n : ℤ) + 1 := Int.floor_lt.mpr (by push_cast; linarith)
    omega
  · rename_i hx
    have h0 : (0 : ℚ) ≤ -x + 1/2 := by push_neg at hx; linarith
    have : 0 ≤ ⌊-x + 1/2⌋ := Int.floor_nonneg.mpr h0
    omega

theorem toU8sat_le {r : ℤ} {n : ℕ} (hr : r ≤ (n : ℤ)) :
    toU8sat r ≤ n := by
  unfold toU8sat
  have h1 : min 255 (max 0 r) ≤ max 0 r := min_le_right _ _
  have h2 : max 0 r ≤ (n : ℤ) := max_le (Int.ofNat_nonneg n) hr
  exact Int.toNat_le.mpr (le_trans h1 h2)

theorem vmaf_lerp_raw_le {min_vmaf : ℚ} {w b : Sample}
    (h : lerpOk min_vmaf w b) :
    vmaf_lerp_raw min_vmaf w b ≤ w.crf := by
  obtain ⟨h1, h2, h3⟩ := h
  unfold vmaf_lerp_raw
  refine toU8sat_le (roundHalfAway_le_nat ?_)
  have hf : 0 ≤ (min_vmaf - w.enc.vmaf) / (b.enc.vmaf - w.enc.vmaf) :=
    div_nonneg (by linarith) (by linarith)
  have hd : 0 ≤ ((w.crf - b.crf : ℕ) : ℚ) := Nat.cast_nonneg _
  nlinarith [mul_nonneg hd hf]

/-- Shared bounds: under the assert precondition the interpolated crf is
strictly above `better.crf` and at most `worse.crf`. -/
theorem vmaf_lerp_crf_bounds {min_vmaf : ℚ} {w b : Sample}
    (h : lerpOk min_vmaf w b) (hw : w.crf ≤ 255) :
    b.crf < vmaf_lerp_crf min_vmaf w b ∧ vmaf_lerp_crf min_vmaf w b ≤ w.crf := by
  have h3 := h.2.2
  have hraw := vmaf_lerp_raw_le h
  unfold vmaf_lerp_crf
  have hb : (b.crf + 1) % 256 = b.crf + 1 := Nat.mod_eq_of_lt (by omega)
  rw [hb]
  omega

/-! ### Evaluation helpers for concrete interpolations -/

theorem roundHalfAway_nonneg_eq {x : ℚ} {n : ℤ} (h0 : 0 ≤ x)
    (hf : ⌊x + 1/2⌋ = n) : roundHalfAway x = n := by
  unfold roundHalfAway
  rw [if_pos h0, hf]

theorem vmaf_lerp_raw_eq {min_vmaf : ℚ} {w b : Sample} {x : ℚ}
    (hx : (w.crf : ℚ) - ((w.crf - b.crf : ℕ) : ℚ) *
      ((min_vmaf - w.enc.vmaf) / (b.enc.vmaf - w.enc.vmaf)) = x) :
    vmaf_lerp_raw min_vmaf w b = toU8sat (roundHalfAway x) := by
  show toU8sat (roundHalfAway ((w.crf : ℚ) - ((w.crf - b.crf : ℕ) : ℚ) *
    ((min_vmaf - w.enc.vmaf) / (b.enc.vmaf - w.enc.vmaf)))) = _
  rw [hx]

/-! ### Branch-selection lemmas -/

theorem decideMet_ne_giveUp (cfg : Cfg) (run : ℕ) (attempts : List Sample)
    (sample t : Sample) : decideMet cfg run attempts sample ≠ Decision.giveUp t := by
  unfold decideMet
  repeat' split
  all_goals exact fun h => Decision.noConfusion h

theorem decideUnmet_giveUp_iff (cfg : Cfg) (run : ℕ) (attempts : List Sample)
    (sample : Sample) :
    decideUnmet cfg run attempts sample = Decision.giveUp sample ↔
      (cfg.max_encoded_percent < sample.enc.predicted_encode_percent ∨
        sample.crf = cfg.min_crf) := by
  unfold decideUnmet
  split
  · rename_i hb
    simp only [hb, iff_true]
  · rename_i hb
    simp only [hb, iff_false]
    repeat' split
    all_goals exact fun h => Decision.noConfusion h

theorem searchGo_trace_head (cfg : Cfg) (oracle : Oracle) (fuel run c : ℕ)
    (att : List Sample) (q : Bool) :
    (searchGo cfg oracle (fuel + 1) run c att q).2.head? =
      some ⟨c, (selectSamples cfg run c q).1, (selectSamples cfg run c q).2⟩ := by
  unfold searchGo
  cases oracle run with
  | error e => rfl
  | ok enc =>
    simp only []
    split <;> rfl

/-! ### Unfolding lemmas for single loop iterations -/

theorem searchGo_cont (cfg : Cfg) (oracle : Oracle) (fuel run c : ℕ)
    (att : List Sample) (q : Bool) (enc : Output) (c1 : ℕ)
    (ho : oracle run = Except.ok enc)
    (hd : searchDecide cfg run (att ++ [⟨enc, c, (selectSamples cfg run c q).1⟩])
      ⟨enc, c, (selectSamples cfg run c q).1⟩ = Decision.cont c1) :
    searchGo cfg oracle (fuel + 1) run c att q =
      ((searchGo cfg oracle fuel (run + 1) c1
          (att ++ [⟨enc, c, (selectSamples cfg run c q).1⟩])
          (selectSamples cfg run c q).2).1,
        ⟨c, (selectSamples cfg run c q).1, (selectSamples cfg run c q).2⟩ ::
        (searchGo cfg oracle fuel (run + 1) c1
          (att ++ [⟨enc, c, (selectSamples cfg run c q).1⟩])
          (selectSamples cfg run c q).2).2) := by
  conv_lhs => rw [searchGo]
  rw [ho]
  dsimp only
  rw [hd]

theorem searchGo_accept (cfg : Cfg) (oracle : Oracle) (fuel run c : ℕ)
    (att : List Sample) (q : Bool) (enc : Output) (s : Sample)
    (ho : oracle run = Except.ok enc)
    (hd : searchDecide cfg run (att ++ [⟨enc, c, (selectSamples cfg run c q).1⟩])
      ⟨enc, c, (selectSamples cfg run c q).1⟩ = Decision.accept s) :
    searchGo cfg oracle (fuel + 1) run c att q =
      (some (Outcome.found s),
        [⟨c, (selectSamples cfg run c q).1, (selectSamples cfg run c q).2⟩]) := by
  conv_lhs => rw [searchGo]
  rw [ho]
  dsimp only
  rw [hd]

/-! ### Decision evaluations along the `cfgWrap` trajectory -/

theorem lerpWrap_eval : vmaf_lerp_crf 95 wA2 wA1 = 48 := by
  have hraw : vmaf_lerp_raw 95 wA2 wA1 = 48 := by
    rw [vmaf_lerp_raw_eq (x := 428/9) (by norm_num [wA1, wA2]),
      roundHalfAway_nonneg_eq (n := 48) (by norm_num) (by norm_num)]
    decide
  unfold vmaf_lerp_crf
  rw [hraw]
  decide

theorem wrapDec1 : searchDecide cfgWrap 1 [wA1] wA1 = Decision.cont 102 := by
  unfold searchDecide
  split
  · unfold decideMet
    split
    · rename_i h
      exact absurd h.1 (by norm_num)
    · rfl
  · rename_i h
    exfalso
    apply h
    norm_num [cfgWrap, wA1]

theorem wrapDec2 : searchDecide cfgWrap 2 [wA1, wA2] wA2 = Decision.cont 48 := by
  unfold searchDecide
  split
  · rename_i h
    norm_num [cfgWrap, wA2] at h
  · unfold decideUnmet
    split
    · rename_i h
      norm_num [cfgWrap, wA2] at h
    · show (if wA1.crf = (wA2.crf + 1) % 256 then Decision.accept wA2
        else if lerpOk 95 wA2 wA1 then Decision.cont (vmaf_lerp_crf 95 wA2 wA1)
        else Decision.panicked) = Decision.cont 48
      rw [if_neg (by decide),
        if_pos (show lerpOk 95 wA2 wA1 from
          ⟨by norm_num [wA2], by norm_num [wA1, wA2], by decide⟩),
        lerpWrap_eval]

theorem wrapDec3 : searchDecide cfgWrap 3 [wA1, wA2, wA3] wA3 =
    Decision.accept wA3 := by
  unfold searchDecide
  split
  · unfold decideMet
    rw [if_pos ⟨by norm_num, by norm_num [cfgWrap, wA3], by norm_num [cfgWrap, wA3]⟩]
  · rename_i h
    exfalso
    apply h
    norm_num [cfgWrap, wA3]

/-! ### Decision evaluations along the `cfgDefault`/`oracleQuick` trajectory -/

theorem lerpQuick17 : vmaf_lerp_crf 95 qB2 qB3 = 17 := by
  have hraw : vmaf_lerp_raw 95 qB2 qB3 = 17 := by
    rw [vmaf_lerp_raw_eq (x := 83/5) (by norm_num [qB2, qB3]),
      roundHalfAway_nonneg_eq (n := 17) (by norm_num) (by norm_num)]
    decide
  unfold vmaf_lerp_crf
  rw [hraw]
  decide

theorem lerpQuick11 : vmaf_lerp_crf 95 qB4 qB3 = 11 := by
  have hraw : vmaf_lerp_raw 95 qB4 qB3 = 10 := by
    rw [vmaf_lerp_raw_eq (x := 317/31) (by norm_num [qB3, qB4]),
      roundHalfAway_nonneg_eq (n := 10) (by norm_num) (by norm_num)]
    decide
  unfold vmaf_lerp_crf
  rw [hraw]
  decide

theorem quickDec1 : searchDecide cfgDefault 1 [qB1] qB1 = Decision.cont 21 := by
  unfold searchDecide
  split
  · rename_i h
    norm_num [cfgDefault, qB1] at h
  · unfold decideUnmet
    split
    · rename_i h
      norm_num [cfgDefault, qB1] at h
    · rfl

theorem quickDec2 : searchDecide cfgDefault 2 [qB1, qB2] qB2 =
    Decision.cont 10 := by
  unfold searchDecide
  split
  · rename_i h
    norm_num [cfgDefault, qB2] at h
  · unfold decideUnmet
    split
    · rename_i h
      norm_num [cfgDefault, qB2] at h
    · rfl

theorem quickDec3 : searchDecide cfgDefault 3 [qB1, qB2, qB3] qB3 =
    Decision.cont 17 := by
  unfold searchDecide
  split
  · unfold decideMet
    split
    · rename_i h
      norm_num [cfgDefault, qB3] at h
    · show (if qB2.crf = (qB3.crf + 1) % 256 then Decision.accept qB3
        else if lerpOk 95 qB2 qB3 then Decision.cont (vmaf_lerp_crf 95 qB2 qB3)
        else Decision.panicked) = Decision.cont 17
      rw [if_neg (by decide),
        if_pos (show lerpOk 95 qB2 qB3 from
          ⟨by norm_num [qB2], by norm_num [qB2, qB3], by decide⟩),
        lerpQuick17]
  · rename_i h
    exfalso
    apply h
    norm_num [cfgDefault, qB3]

theorem quickDec4 : searchDecide cfgDefault 4 [qB1, qB2, qB3, qB4] qB4 =
    Decision.cont 11 := by
  unfold searchDecide
  split
  · rename_i h
    norm_num [cfgDefault, qB4] at h
  · unfold decideUnmet
    split
    · rename_i h
      norm_num [cfgDefault, qB4] at h
    · show (if (qB3.crf + 1) % 256 = qB4.crf then Decision.accept qB3
        else if lerpOk 95 qB4 qB3 then Decision.cont (vmaf_lerp_crf 95 qB4 qB3)
        else Decision.panicked) = Decision.cont 11
      rw [if_neg (by decide),
        if_pos (show lerpOk 95 qB4 qB3 from
          ⟨by norm_num [qB4], by norm_num [qB3, qB4], by decide⟩),
        lerpQuick11]

theorem quickDec5 : searchDecide cfgDefault 5 [qB1, qB2, qB3, qB4, qB5] qB5 =
    Decision.accept qB3 := by
  unfold searchDecide
  split
  · rename_i h
    norm_num [cfgDefault, qB5] at h
  · unfold decideUnmet
    split
    · rename_i h
      norm_num [cfgDefault, qB5] at h
    · show (if (qB3.crf + 1) % 256 = qB5.crf then Decision.accept qB3
        else if lerpOk 95 qB5 qB3 then Decision.cont (vmaf_lerp_crf 95 qB5 qB3)
        else Decision.panicked) = Decision.accept qB3
      rw [if_pos (by decide)]

/-- The full five-probe evaluation of the `cfgDefault`/`oracleQuick`
search: the quick flag turns on at iteration 3 (candidate 10 = `min_crf`)
and the lower-adjacent branch at iteration 5 accepts the attempt at
crf 10. -/
theorem searchQuick_eval :
    search cfgDefault oracleQuick 6 =
      (some (Outcome.found qB3),
        [⟨32, 1, false⟩, ⟨21, 1, false⟩, ⟨10, 1, true⟩, ⟨17, 3, true⟩,
          ⟨11, 3, true⟩]) := by
  have s1 : searchGo cfgDefault oracleQuick 6 1 32 [] false =
      ((searchGo cfgDefault oracleQuick 5 2 21 [qB1] false).1,
        ⟨32, 1, false⟩ :: (searchGo cfgDefault oracleQuick 5 2 21 [qB1] false).2) :=
    searchGo_cont cfgDefault oracleQuick 5 1 32 [] false ⟨92, 0, 50, 0⟩ 21 rfl
      quickDec1
  have s2 : searchGo cfgDefault oracleQuick 5 2 21 [qB1] false =
      ((searchGo cfgDefault oracleQuick 4 3 10 [qB1, qB2] false).1,
        ⟨21, 1, false⟩ ::
          (searchGo cfgDefault oracleQuick 4 3 10 [qB1, qB2] false).2) :=
    searchGo_cont cfgDefault oracleQuick 4 2 21 [qB1] false ⟨93, 0, 50, 0⟩ 10 rfl
      quickDec2
  have s3 : searchGo cfgDefault oracleQuick 4 3 10 [qB1, qB2] false =
      ((searchGo cfgDefault oracleQuick 3 4 17 [qB1, qB2, qB3] true).1,
        ⟨10, 1, true⟩ ::
          (searchGo cfgDefault oracleQuick 3 4 17 [qB1, qB2, qB3] true).2) :=
    searchGo_cont cfgDefault oracleQuick 3 3 10 [qB1, qB2] false ⟨98, 0, 50, 0⟩
      17 rfl quickDec3
  have s4 : searchGo cfgDefault oracleQuick 3 4 17 [qB1, qB2, qB3] true =
      ((searchGo cfgDefault oracleQuick 2 5 11 [qB1, qB2, qB3, qB4] true).1,
        ⟨17, 3, true⟩ ::
          (searchGo cfgDefault oracleQuick 2 5 11 [qB1, qB2, qB3, qB4] true).2) :=
    searchGo_cont cfgDefault oracleQuick 2 4 17 [qB1, qB2, qB3] true
      ⟨5, 0, 50, 0⟩ 11 rfl quickDec4
  have s5 : searchGo cfgDefault oracleQuick 2 5 11 [qB1, qB2, qB3, qB4] true =
      (some (Outcome.found qB3), [⟨11, 3, true⟩]) :=
    searchGo_accept cfgDefault oracleQuick 1 5 11 [qB1, qB2, qB3, qB4] true
      ⟨94, 0, 50, 0⟩ qB3 rfl quickDec5
  show searchGo cfgDefault oracleQuick 6 1 32 [] false = _
  rw [s1, s2, s3, s4, s5]

/-! ### Claim C2 -/

/-- C2 counterexample: with bounds 65..200 the u8 sum 65 + 200 wraps to 9,
the first probe lands at crf 4, and three probe results later the search
ACCEPTS an attempt at crf 48 — outside `[65, 200]` — for a perfectly valid
configuration (`min_crf ≤ max_crf`). -/
theorem c2_wrap_returns_out_of_bounds :
    cfgWrap.min_crf ≤ cfgWrap.max_crf ∧
    (search cfgWrap oracleWrap 10).1 = some (Outcome.found wA3) ∧
    wA3.crf = 48 ∧ 48 < cfgWrap.min_crf := by
  refine ⟨by norm_num [cfgWrap], ?_, rfl, by norm_num [cfgWrap]⟩
  have s1 : searchGo cfgWrap oracleWrap 10 1 4 [] false =
      ((searchGo cfgWrap oracleWrap 9 2 102 [wA1] false).1,
        ⟨4, 1, false⟩ :: (searchGo cfgWrap oracleWrap 9 2 102 [wA1] false).2) :=
    searchGo_cont cfgWrap oracleWrap 9 1 4 [] false ⟨99, 0, 50, 0⟩ 102 rfl
      wrapDec1
  have s2 : searchGo cfgWrap oracleWrap 9 2 102 [wA1] false =
      ((searchGo cfgWrap oracleWrap 8 3 48 [wA1, wA2] false).1,
        ⟨102, 1, false⟩ ::
          (searchGo cfgWrap oracleWrap 8 3 48 [wA1, wA2] false).2) :=
    searchGo_cont cfgWrap oracleWrap 8 2 102 [wA1] false ⟨90, 0, 50, 0⟩ 48 rfl
      wrapDec2
  have s3 : searchGo cfgWrap oracleWrap 8 3 48 [wA1, wA2] false =
      (some (Outcome.found wA3), [⟨48, 3, false⟩]) :=
    searchGo_accept cfgWrap oracleWrap 7 3 48 [wA1, wA2] false
      ⟨953/10, 0, 50, 0⟩ wA3 rfl wrapDec3
  show (searchGo cfgWrap oracleWrap 10 1 4 [] false).1 = some (Outcome.found wA3)
  rw [s1, s2, s3]

theorem searchDecide_accept_mem {cfg : Cfg} {run : ℕ} {att : List Sample}
    {A b : Sample} (hd : searchDecide cfg run att A = Decision.accept b) :
    b = A ∨ b ∈ att := by
  unfold searchDecide decideMet decideUnmet at hd
  split at hd
  · split at hd
    · exact Or.inl (Decision.accept.inj hd).symm
    · split at hd
      · split at hd
        · exact Or.inl (Decision.accept.inj hd).symm
        · split at hd
          · cases hd
          · cases hd
      · split at hd
        · exact Or.inl (Decision.accept.inj hd).symm
        · split at hd
          · cases hd
          · cases hd
  · split at hd
    · cases hd
    · split at hd
      · rename_i lower hlow
        split at hd
        · have hb : lower = b := Decision.accept.inj hd
          subst hb
          exact Or.inr (List.mem_of_mem_filter (maxByCrf?_mem hlow))
        · split at hd
          · cases hd
          · cases hd
      · split at hd
        · cases hd
        · cases hd

theorem searchDecide_cont_bounds {cfg : Cfg} {run : ℕ} {att : List Sample}
    {A : Sample} {c1 : ℕ}
    (hmin : cfg.min_crf ≤ cfg.max_crf) (hmax : cfg.max_crf ≤ 127)
    (hA1 : cfg.min_crf ≤ A.crf) (hA2 : A.crf ≤ cfg.max_crf)
    (hatt : ∀ s ∈ att, cfg.min_crf ≤ s.crf ∧ s.crf ≤ cfg.max_crf)
    (hd : searchDecide cfg run att A = Decision.cont c1) :
    cfg.min_crf ≤ c1 ∧ c1 ≤ cfg.max_crf := by
  unfold searchDecide decideMet decideUnmet at hd
  split at hd
  · split at hd
    · cases hd
    · split at hd
      · rename_i upper hup
        split at hd
        · cases hd
        · split at hd
          · rename_i hok
            have hc1 : c1 = vmaf_lerp_crf cfg.min_vmaf upper A :=
              (Decision.cont.inj hd).symm
            have hub := hatt upper (List.mem_of_mem_filter (minByCrf?_mem hup))
            have hbounds := vmaf_lerp_crf_bounds hok
              (show upper.crf ≤ 255 by omega)
            omega
          · cases hd
      · split at hd
        · cases hd
        · split at hd
          · have hc1 : c1 = ((A.crf + cfg.max_crf) % 256) / 2 :=
              (Decision.cont.inj hd).symm
            omega
          · have hc1 : c1 = cfg.max_crf := (Decision.cont.inj hd).symm
            omega
  · split at hd
    · cases hd
    · split at hd
      · rename_i lower hlow
        split at hd
        · cases hd
        · split at hd
          · rename_i hok
            have hc1 : c1 = vmaf_lerp_crf cfg.min_vmaf A lower :=
              (Decision.cont.inj hd).symm
            have hlb := hatt lower (List.mem_of_mem_filter (maxByCrf?_mem hlow))
            have hbounds := vmaf_lerp_crf_bounds hok
              (show A.crf ≤ 255 by omega)
            omega
          · cases hd
      · split at hd
        · have hc1 : c1 = ((cfg.min_crf + A.crf) % 256) / 2 :=
            (Decision.cont.inj hd).symm
          omega
        · have hc1 : c1 = cfg.min_crf := (Decision.cont.inj hd).symm
          omega

theorem searchGo_found_in_bounds (cfg : Cfg) (oracle : Oracle)
    (hmin : cfg.min_crf ≤ cfg.max_crf) (hmax : cfg.max_crf ≤ 127) :
    ∀ (fuel run c : ℕ) (att : List Sample) (q : Bool) (s : Sample),
    cfg.min_crf ≤ c → c ≤ cfg.max_crf →
    (∀ x ∈ att, cfg.min_crf ≤ x.crf ∧ x.crf ≤ cfg.max_crf) →
    (searchGo cfg oracle fuel run c att q).1 = some (Outcome.found s) →
    cfg.min_crf ≤ s.crf ∧ s.crf ≤ cfg.max_crf := by
  intro fuel
  induction fuel with
  | zero =>
    intro run c att q s _ _ _ h
    cases h
  | succ f ih =>
    intro run c att q s hc1 hc2 hatt h
    rw [searchGo] at h
    cases ho : oracle run with
    | error e =>
      rw [ho] at h
      simp at h
    | ok enc =>
      rw [ho] at h
      dsimp only at h
      have hatt' : ∀ x ∈ att ++ [(⟨enc, c, (selectSamples cfg run c q).1⟩ : Sample)],
          cfg.min_crf ≤ x.crf ∧ x.crf ≤ cfg.max_crf := by
        intro x hx
        rcases List.mem_append.mp hx with hx | hx
        · exact hatt x hx
        · rw [List.mem_singleton.mp hx]
          exact ⟨hc1, hc2⟩
      cases hd : searchDecide cfg run
          (att ++ [(⟨enc, c, (selectSamples cfg run c q).1⟩ : Sample)])
          ⟨enc, c, (selectSamples cfg run c q).1⟩ with
      | cont c1 =>
        rw [hd] at h
        dsimp only at h
        have hb := searchDecide_cont_bounds hmin hmax hc1 hc2 hatt' hd
        exact ih (run + 1) c1 _ _ s hb.1 hb.2 hatt' h
      | accept s0 =>
        rw [hd] at h
        dsimp only at h
        have hs : s0 = s := by
          injection h with h1
          exact Outcome.found.inj h1
        subst hs
        rcases searchDecide_accept_mem hd with hmem | hmem
        · rw [hmem]
          exact ⟨hc1, hc2⟩
        · exact hatt' _ hmem
      | giveUp s0 =>
        rw [hd] at h
        simp at h
      | panicked =>
        rw [hd] at h
        simp at h

/-- C2 (amended): for every configuration with
`min_crf ≤ max_crf ≤ 127` — so that no 8-bit midpoint sum can wrap — and
every sequence of probe results, a successfully returned attempt has its
crf inside `[min_crf, max_crf]`.  (The unrestricted claim is refuted by
`c2_wrap_returns_out_of_bounds`: u8 wrap-around in the midpoint sums can
make the search accept an out-of-bounds crf.) -/
theorem c2_found_crf_in_bounds (cfg : Cfg) (oracle : Oracle) (fuel : ℕ)
    (s : Sample) (hmin : cfg.min_crf ≤ cfg.max_crf) (hmax : cfg.max_crf ≤ 127)
    (h : (search cfg oracle fuel).1 = some (Outcome.found s)) :
    cfg.min_crf ≤ s.crf ∧ s.crf ≤ cfg.max_crf := by
  unfold search at h
  rw [if_pos hmin] at h
  refine searchGo_found_in_bounds cfg oracle hmin hmax fuel 1 _ [] false s
    (by omega) (by omega) (fun x hx => absurd hx (List.not_mem_nil x)) h

/-- C2 witness: the `cfgDefault`/`oracleQuick` search accepts crf 10,
inside the default bounds 10..55. -/
theorem c2_found_crf_in_bounds_witness :
    cfgDefault.min_crf ≤ qB3.crf ∧ qB3.crf ≤ cfgDefault.max_crf :=
  c2_found_crf_in_bounds cfgDefault oracleQuick 6 qB3 (by decide) (by decide)
    (by rw [searchQuick_eval])

/-! ### Claim C6: the lower-adjacent acceptance invariant -/

theorem filter_lt_append_self {att : List Sample} {A : Sample} {k : ℕ}
    (hA : A.crf < k) :
    (att ++ [A]).filter (fun s => s.crf < k) =
      att.filter (fun s => s.crf < k) ++ [A] := by
  rw [List.filter_append]
  congr 1
  simp [List.filter, hA]

theorem filter_lt_append_drop {att : List Sample} {A : Sample} {k : ℕ}
    (hA : ¬(A.crf < k)) :
    (att ++ [A]).filter (fun s => s.crf < k) =
      att.filter (fun s => s.crf < k) := by
  rw [List.filter_append]
  have h : List.filter (fun s => decide (s.crf < k)) [A] = [] := by
    simp [List.filter, hA]
  rw [h, List.append_nil]

theorem maxByCrf?_filter_last {att : List Sample} {A : Sample} {k : ℕ}
    (hA : A.crf < k)
    (hb : ∀ s ∈ att, s.crf < k → s.crf ≤ A.crf) :
    maxByCrf? ((att ++ [A]).filter fun s => s.crf < k) = some A := by
  rw [filter_lt_append_self hA]
  refine maxByCrf?_append_last ?_
  intro s hs
  have hpair := List.mem_filter.mp hs
  exact hb s hpair.1 (of_decide_eq_true hpair.2)

theorem filter_lt_congr {l : List Sample} {k1 k2 : ℕ}
    (h : ∀ s ∈ l, s.crf < k1 ↔ s.crf < k2) :
    l.filter (fun s => s.crf < k1) = l.filter (fun s => s.crf < k2) := by
  apply List.filter_congr
  intro x hx
  exact decide_eq_decide.mpr (h x hx)

theorem searchDecide_cont_le_max {cfg : Cfg} {run : ℕ} {att : List Sample}
    {A : Sample} {c1 : ℕ}
    (hmin : cfg.min_crf ≤ cfg.max_crf) (hmax255 : cfg.max_crf ≤ 255)
    (hA : A.crf ≤ cfg.max_crf)
    (hatt : ∀ s ∈ att, s.crf ≤ cfg.max_crf)
    (hd : searchDecide cfg run att A = Decision.cont c1) :
    c1 ≤ cfg.max_crf := by
  unfold searchDecide decideMet decideUnmet at hd
  split at hd
  · split at hd
    · cases hd
    · split at hd
      · rename_i upper hup
        split at hd
        · cases hd
        · split at hd
          · rename_i hok
            have hc1 : c1 = vmaf_lerp_crf cfg.min_vmaf upper A :=
              (Decision.cont.inj hd).symm
            have hub := hatt upper (List.mem_of_mem_filter (minByCrf?_mem hup))
            have hbounds := vmaf_lerp_crf_bounds hok
              (show upper.crf ≤ 255 by omega)
            omega
          · cases hd
      · split at hd
        · cases hd
        · split at hd
          · have hc1 : c1 = ((A.crf + cfg.max_crf) % 256) / 2 :=
              (Decision.cont.inj hd).symm
            omega
          · have hc1 : c1 = cfg.max_crf := (Decision.cont.inj hd).symm
            omega
  · split at hd
    · cases hd
    · split at hd
      · rename_i lower hlow
        split at hd
        · cases hd
        · split at hd
          · rename_i hok
            have hc1 : c1 = vmaf_lerp_crf cfg.min_vmaf A lower :=
              (Decision.cont.inj hd).symm
            have hbounds := vmaf_lerp_crf_bounds hok
              (show A.crf ≤ 255 by omega)
            omega
          · cases hd
      · split at hd
        · have hc1 : c1 = ((cfg.min_crf + A.crf) % 256) / 2 :=
            (Decision.cont.inj hd).symm
          omega
        · have hc1 : c1 = cfg.min_crf := (Decision.cont.inj hd).symm
          omega

theorem searchDecide_cont_J {cfg : Cfg} {run : ℕ} {att : List Sample}
    {A : Sample} {c1 : ℕ}
    (hmin : cfg.min_crf ≤ cfg.max_crf) (hmax255 : cfg.max_crf ≤ 255)
    (hlen : run = 1 → att = [])
    (hc : A.crf ≤ cfg.max_crf)
    (hatt : ∀ s ∈ att, s.crf ≤ cfg.max_crf)
    (hJ : A.crf = cfg.min_crf ∨
      ∀ low, maxByCrf? (att.filter fun s => s.crf < A.crf) = some low →
        cfg.min_vmaf < low.enc.vmaf)
    (hd : searchDecide cfg run (att ++ [A]) A = Decision.cont c1) :
    c1 = cfg.min_crf ∨
      ∀ low, maxByCrf? ((att ++ [A]).filter fun s => s.crf < c1) = some low →
        cfg.min_vmaf < low.enc.vmaf := by
  have hattA : ∀ s ∈ att ++ [A], s.crf ≤ cfg.max_crf := by
    intro s hs
    rcases List.mem_append.mp hs with hs | hs
    · exact hatt s hs
    · rw [List.mem_singleton.mp hs]
      exact hc
  unfold searchDecide decideMet decideUnmet at hd
  split at hd
  · rename_i hvm
    split at hd
    · cases hd
    · split at hd
      · rename_i upper hup
        split at hd
        · cases hd
        · split at hd
          · rename_i hok
            have hc1 : c1 = vmaf_lerp_crf cfg.min_vmaf upper A :=
              (Decision.cont.inj hd).symm
            have hub := hattA upper (List.mem_of_mem_filter (minByCrf?_mem hup))
            have hbounds := vmaf_lerp_crf_bounds hok
              (show upper.crf ≤ 255 by omega)
            refine Or.inr ?_
            intro low hlow
            have hmaxA : maxByCrf? ((att ++ [A]).filter fun s => s.crf < c1) =
                some A := by
              refine maxByCrf?_filter_last (by omega) ?_
              intro s hs hslt
              by_contra hgt
              push_neg at hgt
              have hsf : s ∈ (att ++ [A]).filter fun x => A.crf < x.crf :=
                List.mem_filter.mpr ⟨List.mem_append_left _ hs, by simpa using hgt⟩
              have := minByCrf?_le hup s hsf
              omega
            rw [hmaxA] at hlow
            rw [← Option.some.inj hlow]
            exact hvm
          · cases hd
      · split at hd
        · cases hd
        · split at hd
          · rename_i hcond
            have hc1 : c1 = ((A.crf + cfg.max_crf) % 256) / 2 :=
              (Decision.cont.inj hd).symm
            have he : att = [] := hlen hcond.1
            subst he
            refine Or.inr ?_
            intro low hlow
            by_cases hAc : A.crf < c1
            · rw [maxByCrf?_filter_last hAc
                (fun s hs _ => absurd hs (List.not_mem_nil s))] at hlow
              rw [← Option.some.inj hlow]
              exact hvm
            · rw [filter_lt_append_drop hAc] at hlow
              exact absurd hlow (by simp [maxByCrf?])
          · rename_i hupn hne _
            have hc1 : c1 = cfg.max_crf := (Decision.cont.inj hd).symm
            have hall : ∀ s ∈ att ++ [A], ¬(A.crf < s.crf) := by
              intro s hs
              intro hgt
              have hsf : s ∈ (att ++ [A]).filter fun x => A.crf < x.crf :=
                List.mem_filter.mpr ⟨hs, by simpa using hgt⟩
              rw [minByCrf?_eq_none.mp hupn] at hsf
              exact absurd hsf (List.not_mem_nil s)
            refine Or.inr ?_
            intro low hlow
            have hmaxA : maxByCrf? ((att ++ [A]).filter fun s => s.crf < c1) =
                some A := by
              refine maxByCrf?_filter_last (by omega) ?_
              intro s hs _
              have := hall s (List.mem_append_left _ hs)
              omega
            rw [hmaxA] at hlow
            rw [← Option.some.inj hlow]
            exact hvm
  · rename_i hvm
    split at hd
    · cases hd
    · rename_i hnb
      push_neg at hnb
      split at hd
      · rename_i lower hlq
        split at hd
        · cases hd
        · split at hd
          · rename_i hok
            have hc1 : c1 = vmaf_lerp_crf cfg.min_vmaf A lower :=
              (Decision.cont.inj hd).symm
            have hbounds := vmaf_lerp_crf_bounds hok
              (show A.crf ≤ 255 by omega)
            have hlq' : maxByCrf? (att.filter fun s => s.crf < A.crf) =
                some lower := by
              rw [← filter_lt_append_drop (show ¬(A.crf < A.crf) by omega)]
              exact hlq
            have hmet : cfg.min_vmaf < lower.enc.vmaf := by
              rcases hJ with hJ | hJ
              · exact absurd hJ hnb.2
              · exact hJ lower hlq'
            refine Or.inr ?_
            intro low hlow
            have hcong : (att ++ [A]).filter (fun s => s.crf < c1) =
                (att ++ [A]).filter (fun s => s.crf < A.crf) := by
              refine filter_lt_congr ?_
              intro s hs
              constructor
              · intro h1
                omega
              · intro h1
                have hsf : s ∈ (att ++ [A]).filter fun x => x.crf < A.crf :=
                  List.mem_filter.mpr ⟨hs, by simpa using h1⟩
                have := maxByCrf?_ge hlq s hsf
                omega
            rw [hcong, hlq] at hlow
            rw [← Option.some.inj hlow]
            exact hmet
          · cases hd
      · split at hd
        · rename_i hcond
          have hc1 : c1 = ((cfg.min_crf + A.crf) % 256) / 2 :=
            (Decision.cont.inj hd).symm
          have he : att = [] := hlen hcond.1
          subst he
          have hc1le : ¬(A.crf < c1) := by
            have h2 := hcond.2
            omega
          refine Or.inr ?_
          intro low hlow
          rw [filter_lt_append_drop hc1le] at hlow
          exact absurd hlow (by simp [maxByCrf?])
        · have hc1 : c1 = cfg.min_crf := (Decision.cont.inj hd).symm
          exact Or.inl hc1

theorem reaches_inv {cfg : Cfg} {oracle : Oracle}
    (hmin : cfg.min_crf ≤ cfg.max_crf) (hmax255 : cfg.max_crf ≤ 255) :
    ∀ {run c : ℕ} {att : List Sample} {q : Bool},
    Reaches cfg oracle run c att q →
    att.length + 1 = run ∧ c ≤ cfg.max_crf ∧
    (∀ s ∈ att, s.crf ≤ cfg.max_crf) ∧
    (c = cfg.min_crf ∨
      ∀ low, maxByCrf? (att.filter fun s => s.crf < c) = some low →
        cfg.min_vmaf < low.enc.vmaf) := by
  intro run c att q h
  induction h with
  | init h0 =>
    refine ⟨rfl, by omega, fun s hs => absurd hs (List.not_mem_nil s), Or.inr ?_⟩
    intro low hlow
    exact absurd hlow (by simp [maxByCrf?])
  | step run c att q enc c1 hreach ho hd ih =>
    obtain ⟨hlen, hc, hatt, hJ⟩ := ih
    have hattA : ∀ s ∈ att ++ [(⟨enc, c, (selectSamples cfg run c q).1⟩ : Sample)],
        s.crf ≤ cfg.max_crf := by
      intro s hs
      rcases List.mem_append.mp hs with hs | hs
      · exact hatt s hs
      · rw [List.mem_singleton.mp hs]
        exact hc
    have hlen1 : run = 1 → att = [] := by
      intro h1
      rw [h1] at hlen
      exact List.length_eq_zero.mp (by omega)
    refine ⟨by simp only [List.length_append, List.length_cons, List.length_nil]; omega,
      ?_, hattA, ?_⟩
    · exact searchDecide_cont_le_max hmin hmax255 hc hattA hd
    · exact searchDecide_cont_J hmin hmax255 hlen1 hc hatt hJ hd

/-- C6: whenever the quality-not-met branch of a REACHABLE state finds a
lower neighbour whose crf + 1 equals the current candidate, the decision
accepts that lower neighbour's Attempt (not the current one), the loop
returns it as the found outcome with no further probes, and the returned
neighbour's measured quality strictly beats the target. -/
theorem c6_lower_adjacent_returns_met_lower (cfg : Cfg) (oracle : Oracle)
    (run c : ℕ) (att : List Sample) (q : Bool) (enc : Output) (low : Sample)
    (hmin : cfg.min_crf ≤ cfg.max_crf) (hmax255 : cfg.max_crf ≤ 255)
    (hreach : Reaches cfg oracle run c att q)
    (ho : oracle run = Except.ok enc)
    (hunmet : enc.vmaf ≤ cfg.min_vmaf)
    (hnobail : ¬(cfg.max_encoded_percent < enc.predicted_encode_percent ∨
      c = cfg.min_crf))
    (hlow : maxByCrf?
      ((att ++ [(⟨enc, c, (selectSamples cfg run c q).1⟩ : Sample)]).filter
        fun s => s.crf < c) = some low)
    (hadj : (low.crf + 1) % 256 = c) :
    searchDecide cfg run (att ++ [(⟨enc, c, (selectSamples cfg run c q).1⟩ : Sample)])
      ⟨enc, c, (selectSamples cfg run c q).1⟩ = Decision.accept low ∧
    cfg.min_vmaf < low.enc.vmaf ∧
    (∀ fuel, searchGo cfg oracle (fuel + 1) run c att q =
      (some (Outcome.found low),
        [⟨c, (selectSamples cfg run c q).1, (selectSamples cfg run c q).2⟩])) := by
  have hdec : searchDecide cfg run
      (att ++ [(⟨enc, c, (selectSamples cfg run c q).1⟩ : Sample)])
      ⟨enc, c, (selectSamples cfg run c q).1⟩ = Decision.accept low := by
    unfold searchDecide
    rw [if_neg (not_lt.mpr hunmet)]
    unfold decideUnmet
    rw [if_neg hnobail]
    have hlow' : maxByCrf?
        ((att ++ [(⟨enc, c, (selectSamples cfg run c q).1⟩ : Sample)]).filter
          fun s => s.crf <
            (⟨enc, c, (selectSamples cfg run c q).1⟩ : Sample).crf) = some low :=
      hlow
    rw [hlow']
    dsimp only
    rw [if_pos (show (low.crf + 1) % 256 =
      (⟨enc, c, (selectSamples cfg run c q).1⟩ : Sample).crf from hadj)]
  have hmet : cfg.min_vmaf < low.enc.vmaf := by
    have hinv := reaches_inv hmin hmax255 hreach
    have hcne : c ≠ cfg.min_crf := by
      intro hceq
      exact hnobail (Or.inr hceq)
    have hdrop : ((att ++ [(⟨enc, c, (selectSamples cfg run c q).1⟩ : Sample)]).filter
        fun s => s.crf < c) = att.filter fun s => s.crf < c :=
      filter_lt_append_drop (show ¬(c < c) from by omega)
    have hlowatt : maxByCrf? (att.filter fun s => s.crf < c) = some low := by
      rw [← hdrop]
      exact hlow
    rcases hinv.2.2.2 with hJ | hJ
    · exact absurd hJ hcne
    · exact hJ low hlowatt
  refine ⟨hdec, hmet, ?_⟩
  intro fuel
  exact searchGo_accept cfg oracle fuel run c att q enc low ho hdec

/-- C6 witness: along the concrete `cfgDefault`/`oracleQuick` trajectory,
iteration 5 at candidate 11 finds the lower neighbour at crf 10 adjacent,
accepts it, and its vmaf 98 beats the target 95. -/
theorem c6_lower_adjacent_returns_met_lower_witness :
    searchDecide cfgDefault 5 [qB1, qB2, qB3, qB4, qB5] qB5 =
      Decision.accept qB3 ∧
    cfgDefault.min_vmaf < qB3.enc.vmaf := by
  have r1 : Reaches cfgDefault oracleQuick 1 32 [] false :=
    Reaches.init (by decide)
  have r2 : Reaches cfgDefault oracleQuick 2 21 [qB1] false :=
    Reaches.step 1 32 [] false ⟨92, 0, 50, 0⟩ 21 r1 rfl quickDec1
  have r3 : Reaches cfgDefault oracleQuick 3 10 [qB1, qB2] false :=
    Reaches.step 2 21 [qB1] false ⟨93, 0, 50, 0⟩ 10 r2 rfl quickDec2
  have r4 : Reaches cfgDefault oracleQuick 4 17 [qB1, qB2, qB3] true :=
    Reaches.step 3 10 [qB1, qB2] false ⟨98, 0, 50, 0⟩ 17 r3 rfl quickDec3
  have r5 : Reaches cfgDefault oracleQuick 5 11 [qB1, qB2, qB3, qB4] true :=
    Reaches.step 4 17 [qB1, qB2, qB3] true ⟨5, 0, 50, 0⟩ 11 r4 rfl quickDec4
  have h := c6_lower_adjacent_returns_met_lower cfgDefault oracleQuick 5 11
    [qB1, qB2, qB3, qB4] true ⟨94, 0, 50, 0⟩ qB3 (by decide) (by decide) r5 rfl
    (by norm_num [cfgDefault]) (by norm_num [cfgDefault]) rfl rfl
  exact ⟨h.1, h.2.1⟩

/-! ### Claim C10: the quick-third-run flag -/

theorem selectSamples_snd_true (cfg : Cfg) (run c : ℕ) :
    (selectSamples cfg run c true).2 = true := by
  unfold selectSamples
  split
  · rfl
  · split
    · rfl
    · rfl

theorem selectSamples_snd_ge4 (cfg : Cfg) (run c : ℕ) (q : Bool) (h : 4 ≤ run) :
    (selectSamples cfg run c q).2 = q := by
  unfold selectSamples
  rw [if_neg (show ¬(run = 1 ∨ run = 2) by rintro (h1 | h1) <;> omega),
    if_neg (show ¬(run = 3 ∧ (c = cfg.min_crf ∨ c = cfg.max_crf)) from
      fun hc => by omega)]

theorem selectSamples_run12 (cfg : Cfg) (run c : ℕ) (q : Bool)
    (h : run = 1 ∨ run = 2) : selectSamples cfg run c q = (1, q) := by
  unfold selectSamples
  rw [if_pos h]

theorem searchGo_trace_all_true (cfg : Cfg) (oracle : Oracle) :
    ∀ (fuel run c : ℕ) (att : List Sample),
    ∀ e ∈ (searchGo cfg oracle fuel run c att true).2, e.quick = true := by
  intro fuel
  induction fuel with
  | zero =>
    intro run c att e he
    exact absurd he (List.not_mem_nil e)
  | succ f ih =>
    intro run c att e he
    rw [searchGo] at he
    cases ho : oracle run with
    | error err =>
      rw [ho] at he
      dsimp only at he
      rw [List.mem_singleton.mp he]
      exact selectSamples_snd_true cfg run c
    | ok enc =>
      rw [ho] at he
      dsimp only at he
      cases hd : searchDecide cfg run
          (att ++ [(⟨enc, c, (selectSamples cfg run c true).1⟩ : Sample)])
          ⟨enc, c, (selectSamples cfg run c true).1⟩ with
      | cont c1 =>
        rw [hd] at he
        dsimp only at he
        rcases List.mem_cons.mp he with rfl | he'
        · exact selectSamples_snd_true cfg run c
        · rw [selectSamples_snd_true cfg run c] at he'
          exact ih (run + 1) c1 _ e he'
      | accept s =>
        rw [hd] at he
        dsimp only at he
        rw [List.mem_singleton.mp he]
        exact selectSamples_snd_true cfg run c
      | giveUp s =>
        rw [hd] at he
        dsimp only at he
        rw [List.mem_singleton.mp he]
        exact selectSamples_snd_true cfg run c
      | panicked =>
        rw [hd] at he
        dsimp only at he
        rw [List.mem_singleton.mp he]
        exact selectSamples_snd_true cfg run c

theorem searchGo_trace_all_false (cfg : Cfg) (oracle : Oracle) :
    ∀ (fuel run c : ℕ) (att : List Sample), 4 ≤ run →
    ∀ e ∈ (searchGo cfg oracle fuel run c att false).2, e.quick = false := by
  intro fuel
  induction fuel with
  | zero =>
    intro run c att _ e he
    exact absurd he (List.not_mem_nil e)
  | succ f ih =>
    intro run c att h4 e he
    rw [searchGo] at he
    cases ho : oracle run with
    | error err =>
      rw [ho] at he
      dsimp only at he
      rw [List.mem_singleton.mp he]
      exact selectSamples_snd_ge4 cfg run c false h4
    | ok enc =>
      rw [ho] at he
      dsimp only at he
      cases hd : searchDecide cfg run
          (att ++ [(⟨enc, c, (selectSamples cfg run c false).1⟩ : Sample)])
          ⟨enc, c, (selectSamples cfg run c false).1⟩ with
      | cont c1 =>
        rw [hd] at he
        dsimp only at he
        rcases List.mem_cons.mp he with rfl | he'
        · exact selectSamples_snd_ge4 cfg run c false h4
        · rw [selectSamples_snd_ge4 cfg run c false h4] at he'
          exact ih (run + 1) c1 _ (by omega) e he'
      | accept s =>
        rw [hd] at he
        dsimp only at he
        rw [List.mem_singleton.mp he]
        exact selectSamples_snd_ge4 cfg run c false h4
      | giveUp s =>
        rw [hd] at he
        dsimp only at he
        rw [List.mem_singleton.mp he]
        exact selectSamples_snd_ge4 cfg run c false h4
      | panicked =>
        rw [hd] at he
        dsimp only at he
        rw [List.mem_singleton.mp he]
        exact selectSamples_snd_ge4 cfg run c false h4

theorem searchGo_trace_mono (cfg : Cfg) (oracle : Oracle) :
    ∀ (fuel run c : ℕ) (att : List Sample) (q : Bool) (i j : ℕ)
      (ei ej : ProbeRec), i ≤ j →
    (searchGo cfg oracle fuel run c att q).2.get? i = some ei →
    (searchGo cfg oracle fuel run c att q).2.get? j = some ej →
    ei.quick = true → ej.quick = true := by
  intro fuel
  induction fuel with
  | zero =>
    intro run c att q i j ei ej _ hi _ _
    rw [searchGo] at hi
    exact absurd hi (by simp)
  | succ f ih =>
    intro run c att q i j ei ej hij hi hj hq
    rw [searchGo] at hi hj
    cases ho : oracle run with
    | error err =>
      rw [ho] at hi hj
      dsimp only at hi hj
      cases i with
      | zero =>
        cases j with
        | zero =>
          simp only [List.get?_cons_zero] at hi hj
          rw [← Option.some.inj hj]
          rw [← Option.some.inj hi] at hq
          exact hq
        | succ j1 => exact absurd hj (by simp)
      | succ i1 => exact absurd hi (by simp)
    | ok enc =>
      rw [ho] at hi hj
      dsimp only at hi hj
      cases hd : searchDecide cfg run
          (att ++ [(⟨enc, c, (selectSamples cfg run c q).1⟩ : Sample)])
          ⟨enc, c, (selectSamples cfg run c q).1⟩ with
      | cont c1 =>
        rw [hd] at hi hj
        dsimp only at hi hj
        cases i with
        | zero =>
          simp only [List.get?_cons_zero] at hi
          have hqt : (selectSamples cfg run c q).2 = true := by
            rw [← Option.some.inj hi] at hq
            exact hq
          cases j with
          | zero =>
            simp only [List.get?_cons_zero] at hj
            rw [← Option.some.inj hj]
            exact hqt
          | succ j1 =>
            rw [List.get?_cons_succ, hqt] at hj
            exact searchGo_trace_all_true cfg oracle f (run + 1) c1 _ ej
              (List.get?_mem hj)
        | succ i1 =>
          cases j with
          | zero => omega
          | succ j1 =>
            rw [List.get?_cons_succ] at hi hj
            exact ih (run + 1) c1 _ _ i1 j1 ei ej (by omega) hi hj hq
      | accept s =>
        rw [hd] at hi hj
        dsimp only at hi hj
        cases i with
        | zero =>
          cases j with
          | zero =>
            simp only [List.get?_cons_zero] at hi hj
            rw [← Option.some.inj hj]
            rw [← Option.some.inj hi] at hq
            exact hq
          | succ j1 => exact absurd hj (by simp)
        | succ i1 => exact absurd hi (by simp)
      | giveUp s =>
        rw [hd] at hi hj
        dsimp only at hi hj
        cases i with
        | zero =>
          cases j with
          | zero =>
            simp only [List.get?_cons_zero] at hi hj
            rw [← Option.some.inj hj]
            rw [← Option.some.inj hi] at hq
            exact hq
          | succ j1 => exact absurd hj (by simp)
        | succ i1 => exact absurd hi (by simp)
      | panicked =>
        rw [hd] at hi hj
        dsimp only at hi hj
        cases i with
        | zero =>
          cases j with
          | zero =>
            simp only [List.get?_cons_zero] at hi hj
            rw [← Option.some.inj hj]
            rw [← Option.some.inj hi] at hq
            exact hq
          | succ j1 => exact absurd hj (by simp)
        | succ i1 => exact absurd hi (by simp)

theorem searchGo_trace_run3 (cfg : Cfg) (oracle : Oracle) (fuel c : ℕ)
    (att : List Sample) (i : ℕ) (ei : ProbeRec)
    (hi : (searchGo cfg oracle fuel 3 c att false).2.get? i = some ei)
    (hq : ei.quick = true) :
    (c = cfg.min_crf ∨ c = cfg.max_crf) ∧
    ∃ e0, (searchGo cfg oracle fuel 3 c att false).2.get? 0 = some e0 ∧
      e0.quick = true ∧ e0.crf = c := by
  cases fuel with
  | zero => exact absurd hi (by simp [searchGo])
  | succ f =>
    by_cases hb : c = cfg.min_crf ∨ c = cfg.max_crf
    · refine ⟨hb, ?_⟩
      have hsel : selectSamples cfg 3 c false = (1, true) := by
        unfold selectSamples
        rw [if_neg (by rintro (h1 | h1) <;> omega), if_pos ⟨rfl, hb⟩]
      have hh := searchGo_trace_head cfg oracle f 3 c att false
      rw [hsel] at hh
      refine ⟨⟨c, 1, true⟩, ?_, rfl, rfl⟩
      rw [show ((searchGo cfg oracle (f + 1) 3 c att false).2.get? 0) =
        (searchGo cfg oracle (f + 1) 3 c att false).2.head? from ?_, hh]
      cases (searchGo cfg oracle (f + 1) 3 c att false).2 with
      | nil => rfl
      | cons a l => rfl
    · exfalso
      have hsel : selectSamples cfg 3 c false = (cfg.samples, false) := by
        unfold selectSamples
        rw [if_neg (by rintro (h1 | h1) <;> omega), if_neg (fun hc => hb hc.2)]
      rw [searchGo] at hi
      cases ho : oracle 3 with
      | error err =>
        rw [ho] at hi
        dsimp only at hi
        cases i with
        | zero =>
          simp only [List.get?_cons_zero] at hi
          rw [← Option.some.inj hi, hsel] at hq
          exact Bool.false_ne_true hq
        | succ i1 => exact absurd hi (by simp)
      | ok enc =>
        rw [ho] at hi
        dsimp only at hi
        cases hd : searchDecide cfg 3
            (att ++ [(⟨enc, c, (selectSamples cfg 3 c false).1⟩ : Sample)])
            ⟨enc, c, (selectSamples cfg 3 c false).1⟩ with
        | cont c1 =>
          rw [hd] at hi
          dsimp only at hi
          cases i with
          | zero =>
            simp only [List.get?_cons_zero] at hi
            rw [← Option.some.inj hi, hsel] at hq
            exact Bool.false_ne_true hq
          | succ i1 =>
            rw [List.get?_cons_succ, hsel] at hi
            dsimp only at hi
            have := searchGo_trace_all_false cfg oracle f (3 + 1) c1 _
              (by omega) ei (List.get?_mem hi)
            rw [this] at hq
            exact Bool.false_ne_true hq
        | accept s =>
          rw [hd] at hi
          dsimp only at hi
          cases i with
          | zero =>
            simp only [List.get?_cons_zero] at hi
            rw [← Option.some.inj hi, hsel] at hq
            exact Bool.false_ne_true hq
          | succ i1 => exact absurd hi (by simp)
        | giveUp s =>
          rw [hd] at hi
          dsimp only at hi
          cases i with
          | zero =>
            simp only [List.get?_cons_zero] at hi
            rw [← Option.some.inj hi, hsel] at hq
            exact Bool.false_ne_true hq
          | succ i1 => exact absurd hi (by simp)
        | panicked =>
          rw [hd] at hi
          dsimp only at hi
          cases i with
          | zero =>
            simp only [List.get?_cons_zero] at hi
            rw [← Option.some.inj hi, hsel] at hq
            exact Bool.false_ne_true hq
          | succ i1 => exact absurd hi (by simp)

theorem searchGo_trace_run2 (cfg : Cfg) (oracle : Oracle) (fuel c : ℕ)
    (att : List Sample) (i : ℕ) (ei : ProbeRec)
    (hi : (searchGo cfg oracle fuel 2 c att false).2.get? i = some ei)
    (hq : ei.quick = true) :
    1 ≤ i ∧ ∃ e2, (searchGo cfg oracle fuel 2 c att false).2.get? 1 = some e2 ∧
      (e2.crf = cfg.min_crf ∨ e2.crf = cfg.max_crf) ∧ e2.quick = true := by
  cases fuel with
  | zero => exact absurd hi (by simp [searchGo])
  | succ f =>
    have hsel : selectSamples cfg 2 c false = (1, false) :=
      selectSamples_run12 cfg 2 c false (Or.inr rfl)
    rw [searchGo] at hi ⊢
    cases ho : oracle 2 with
    | error err =>
      rw [ho] at hi
      dsimp only at hi ⊢
      cases i with
      | zero =>
        simp only [List.get?_cons_zero] at hi
        rw [← Option.some.inj hi, hsel] at hq
        exact absurd hq Bool.false_ne_true
      | succ i1 => exact absurd hi (by simp)
    | ok enc =>
      rw [ho] at hi
      dsimp only at hi ⊢
      cases hd : searchDecide cfg 2
          (att ++ [(⟨enc, c, (selectSamples cfg 2 c false).1⟩ : Sample)])
          ⟨enc, c, (selectSamples cfg 2 c false).1⟩ with
      | cont c1 =>
        rw [hd] at hi
        dsimp only at hi ⊢
        cases i with
        | zero =>
          simp only [List.get?_cons_zero] at hi
          rw [← Option.some.inj hi, hsel] at hq
          exact absurd hq Bool.false_ne_true
        | succ i1 =>
          rw [List.get?_cons_succ, hsel] at hi
          dsimp only at hi
          refine ⟨by omega, ?_⟩
          have h3 := searchGo_trace_run3 cfg oracle f c1 _ i1 ei hi hq
          obtain ⟨hbb, e0, hget0, hq0, hcrf0⟩ := h3
          refine ⟨e0, ?_, ?_, hq0⟩
          · rw [List.get?_cons_succ, hsel]
            dsimp only
            exact hget0
          · rw [hcrf0]
            exact hbb
      | accept s =>
        rw [hd] at hi
        dsimp only at hi ⊢
        cases i with
        | zero =>
          simp only [List.get?_cons_zero] at hi
          rw [← Option.some.inj hi, hsel] at hq
          exact absurd hq Bool.false_ne_true
        | succ i1 => exact absurd hi (by simp)
      | giveUp s =>
        rw [hd] at hi
        dsimp only at hi ⊢
        cases i with
        | zero =>
          simp only [List.get?_cons_zero] at hi
          rw [← Option.some.inj hi, hsel] at hq
          exact absurd hq Bool.false_ne_true
        | succ i1 => exact absurd hi (by simp)
      | panicked =>
        rw [hd] at hi
        dsimp only at hi ⊢
        cases i with
        | zero =>
          simp only [List.get?_cons_zero] at hi
          rw [← Option.some.inj hi, hsel] at hq
          exact absurd hq Bool.false_ne_true
        | succ i1 => exact absurd hi (by simp)

theorem searchGo_trace_run1 (cfg : Cfg) (oracle : Oracle) (fuel c : ℕ)
    (att : List Sample) (i : ℕ) (ei : ProbeRec)
    (hi : (searchGo cfg oracle fuel 1 c att false).2.get? i = some ei)
    (hq : ei.quick = true) :
    2 ≤ i ∧ ∃ e2, (searchGo cfg oracle fuel 1 c att false).2.get? 2 = some e2 ∧
      (e2.crf = cfg.min_crf ∨ e2.crf = cfg.max_crf) ∧ e2.quick = true := by
  cases fuel with
  | zero => exact absurd hi (by simp [searchGo])
  | succ f =>
    have hsel : selectSamples cfg 1 c false = (1, false) :=
      selectSamples_run12 cfg 1 c false (Or.inl rfl)
    rw [searchGo] at hi ⊢
    cases ho : oracle 1 with
    | error err =>
      rw [ho] at hi
      dsimp only at hi ⊢
      cases i with
      | zero =>
        simp only [List.get?_cons_zero] at hi
        rw [← Option.some.inj hi, hsel] at hq
        exact absurd hq Bool.false_ne_true
      | succ i1 => exact absurd hi (by simp)
    | ok enc =>
      rw [ho] at hi
      dsimp only at hi ⊢
      cases hd : searchDecide cfg 1
          (att ++ [(⟨enc, c, (selectSamples cfg 1 c false).1⟩ : Sample)])
          ⟨enc, c, (selectSamples cfg 1 c false).1⟩ with
      | cont c1 =>
        rw [hd] at hi
        dsimp only at hi ⊢
        cases i with
        | zero =>
          simp only [List.get?_cons_zero] at hi
          rw [← Option.some.inj hi, hsel] at hq
          exact absurd hq Bool.false_ne_true
        | succ i1 =>
          rw [List.get?_cons_succ, hsel] at hi
          dsimp only at hi
          have h2 := searchGo_trace_run2 cfg oracle f c1 _ i1 ei hi hq
          obtain ⟨hi1, e2, hget1, hbb, hq2⟩ := h2
          refine ⟨by omega, ?_⟩
          refine ⟨e2, ?_, hbb, hq2⟩
          rw [List.get?_cons_succ, hsel]
          dsimp only
          exact hget1
      | accept s =>
        rw [hd] at hi
        dsimp only at hi ⊢
        cases i with
        | zero =>
          simp only [List.get?_cons_zero] at hi
          rw [← Option.some.inj hi, hsel] at hq
          exact absurd hq Bool.false_ne_true
        | succ i1 => exact absurd hi (by simp)
      | giveUp s =>
        rw [hd] at hi
        dsimp only at hi ⊢
        cases i with
        | zero =>
          simp only [List.get?_cons_zero] at hi
          rw [← Option.some.inj hi, hsel] at hq
          exact absurd hq Bool.false_ne_true
        | succ i1 => exact absurd hi (by simp)
      | panicked =>
        rw [hd] at hi
        dsimp only at hi ⊢
        cases i with
        | zero =>
          simp only [List.get?_cons_zero] at hi
          rw [← Option.some.inj hi, hsel] at hq
          exact absurd hq Bool.false_ne_true
        | succ i1 => exact absurd hi (by simp)

/-- C10: within one search invocation the `quick_3rd_run` flag is
monotone — once an iteration observes it set, every later iteration does —
and it can only ever be observed set from iteration 3 onwards, in which
case iteration 3's candidate sat on `min_crf` or `max_crf` and already
observed the flag; consequently iterations 1 and 2 always observe it
cleared. -/
theorem c10_quick_flag_monotone_onset (cfg : Cfg) (oracle : Oracle)
    (fuel : ℕ) :
    (∀ i j ei ej, i ≤ j →
      (search cfg oracle fuel).2.get? i = some ei →
      (search cfg oracle fuel).2.get? j = some ej →
      ei.quick = true → ej.quick = true) ∧
    (∀ i ei, (search cfg oracle fuel).2.get? i = some ei → ei.quick = true →
      2 ≤ i ∧ ∃ e2, (search cfg oracle fuel).2.get? 2 = some e2 ∧
        (e2.crf = cfg.min_crf ∨ e2.crf = cfg.max_crf) ∧ e2.quick = true) ∧
    (∀ i ei, (search cfg oracle fuel).2.get? i = some ei → i ≤ 1 →
      ei.quick = false) := by
  have hparts : (∀ i j ei ej, i ≤ j →
      (search cfg oracle fuel).2.get? i = some ei →
      (search cfg oracle fuel).2.get? j = some ej →
      ei.quick = true → ej.quick = true) ∧
      (∀ i ei, (search cfg oracle fuel).2.get? i = some ei → ei.quick = true →
        2 ≤ i ∧ ∃ e2, (search cfg oracle fuel).2.get? 2 = some e2 ∧
          (e2.crf = cfg.min_crf ∨ e2.crf = cfg.max_crf) ∧ e2.quick = true) := by
    unfold search
    split
    · constructor
      · intro i j ei ej hij hi hj hq
        exact searchGo_trace_mono cfg oracle fuel 1 _ [] false i j ei ej hij
          hi hj hq
      · intro i ei hi hq
        exact searchGo_trace_run1 cfg oracle fuel _ [] i ei hi hq
    · constructor
      · intro i j ei ej _ hi _ _
        exact absurd hi (by simp)
      · intro i ei hi _
        exact absurd hi (by simp)
  refine ⟨hparts.1, hparts.2, ?_⟩
  intro i ei hi hle
  cases hqf : ei.quick with
  | false => rfl
  | true =>
    have h2 := hparts.2 i ei hi hqf
    omega

/-- C10 witness: in the concrete `cfgDefault`/`oracleQuick` trace the flag
observed at iteration 4 (index 3) forces iteration 3 (index 2) to sit on a
bound with the flag set: that probe ran at crf 10 = `min_crf` with the
flag on. -/
theorem c10_quick_flag_monotone_onset_witness :
    ((search cfgDefault oracleQuick 6).2.get? 2).map ProbeRec.quick =
      some true ∧
    ((search cfgDefault oracleQuick 6).2.get? 2).map ProbeRec.crf =
      some cfgDefault.min_crf := by
  have h := (c10_quick_flag_monotone_onset cfgDefault oracleQuick 6).2.1 3
    ⟨17, 3, true⟩ (by simp [searchQuick_eval]) rfl
  obtain ⟨-, e2, hget, hor, hq⟩ := h
  have he2 : e2 = ⟨10, 1, true⟩ := by
    rw [searchQuick_eval] at hget
    exact (Option.some.inj hget).symm
  subst he2
  constructor
  · rw [searchQuick_eval]
    rfl
  · rw [searchQuick_eval]
    rfl

/-! ### Claim C1 -/

/-- C1 counterexample: a probe whose measured quality EQUALS `min_vmaf`
(here both 95), at the `min_crf` boundary, is handled by the
quality-not-met branch — it yields the infeasibility `giveUp`, which the
quality-met branch can never produce.  The claim says equality is handled
by the quality-met branch. -/
theorem c1_equal_quality_takes_unmet_branch :
    sampleEq.enc.vmaf = cfgDefault.min_vmaf ∧
    searchDecide cfgDefault 1 [sampleEq] sampleEq = Decision.giveUp sampleEq := by
  constructor
  · rfl
  · decide

/-- C1 (amended): the controller takes the quality-met branch exactly when
the measured quality is STRICTLY greater than `min_vmaf`; a probe whose
quality equals `min_vmaf` is handled by the quality-not-met branch.  In
particular the infeasibility decision (which only the quality-not-met
branch can emit) fires iff quality ≤ `min_vmaf` and the size/bound guard
holds. -/
theorem c1_met_branch_strict (cfg : Cfg) (run : ℕ) (attempts : List Sample)
    (sample : Sample) :
    (sample.enc.vmaf ≤ cfg.min_vmaf →
      searchDecide cfg run attempts sample = decideUnmet cfg run attempts sample) ∧
    (cfg.min_vmaf < sample.enc.vmaf →
      searchDecide cfg run attempts sample = decideMet cfg run attempts sample) ∧
    (searchDecide cfg run attempts sample = Decision.giveUp sample ↔
      (sample.enc.vmaf ≤ cfg.min_vmaf ∧
        (cfg.max_encoded_percent < sample.enc.predicted_encode_percent ∨
          sample.crf = cfg.min_crf))) := by
  refine ⟨?_, ?_, ?_⟩
  · intro h
    unfold searchDecide
    rw [if_neg (not_lt.mpr h)]
  · intro h
    unfold searchDecide
    rw [if_pos h]
  · unfold searchDecide
    by_cases h : cfg.min_vmaf < sample.enc.vmaf
    · rw [if_pos h]
      constructor
      · intro hc
        exact absurd hc (decideMet_ne_giveUp _ _ _ _ _)
      · intro hc
        exact absurd hc.1 (not_le.mpr h)
    · rw [if_neg h]
      rw [decideUnmet_giveUp_iff]
      simp [not_lt.mp h]

/-- C1 witness: the amended branch rule applied at the concrete
equal-quality probe. -/
theorem c1_met_branch_strict_witness :
    searchDecide cfgDefault 1 [sampleEq] sampleEq =
      decideUnmet cfgDefault 1 [sampleEq] sampleEq :=
  (c1_met_branch_strict cfgDefault 1 [sampleEq] sampleEq).1 (by decide)

/-! ### Claim C3 -/

/-- C3 counterexample: at iteration 3 the guessed totals are 6 (quick) and
8 (not quick), not the 4 and 6 the claim states. -/
theorem c3_guess_total_not_four_or_six :
    guess_total_samples 3 true = 6 ∧ guess_total_samples 3 false = 8 ∧
    guess_total_samples 3 true ≠ 4 ∧ guess_total_samples 3 false ≠ 6 := by
  decide

/-- C3 (amended): for iterations 1–4 the guessed total units equal 6 when
`quick_3rd_run` is set (pattern 1,1,1,3) and 8 when it is not (pattern
1,1,3,3); for every iteration beyond 4 the guessed total equals the
previous iteration's total plus 3. -/
theorem c3_guess_total_values :
    (∀ run quick_flag, 1 ≤ run → run ≤ 4 →
      guess_total_samples run quick_flag = if quick_flag then 6 else 8) ∧
    (∀ run quick_flag, 5 ≤ run →
      guess_total_samples run quick_flag =
        guess_total_samples (run - 1) quick_flag + 3) := by
  constructor
  · intro run q h1 h4
    unfold guess_total_samples
    rw [if_pos ⟨h1, h4⟩]
  · intro run q h5
    rcases Nat.lt_or_ge run 6 with h6 | h6
    · have hrun : run = 5 := by omega
      subst hrun
      cases q <;> decide
    · unfold guess_total_samples
      have hc1 : ¬(1 ≤ run ∧ run ≤ 4) := by omega
      have hc2 : ¬(1 ≤ run - 1 ∧ run - 1 ≤ 4) := by omega
      rw [if_neg hc1, if_neg hc2]
      cases q
      · rw [if_neg Bool.false_ne_true, if_neg Bool.false_ne_true]
        omega
      · rw [if_pos rfl, if_pos rfl]
        omega

/-- C3 witness: the amended totals at iterations 2 and 7. -/
theorem c3_guess_total_values_witness :
    guess_total_samples 2 true = 6 ∧
    guess_total_samples 7 false = guess_total_samples 6 false + 3 :=
  ⟨by have h := c3_guess_total_values.1 2 true (by norm_num) (by norm_num)
      simpa using h,
   c3_guess_total_values.2 7 false (by norm_num)⟩

/-! ### Claim C4 -/

/-- C4 counterexample: with `worse.vmaf` exactly at the target the
interpolation factor is 0, so the UNclamped value already equals
`worse.crf = 20` (the clamp to `better.crf + 1 = 11` does not engage), and
the returned parameter is not strictly less than `worse.crf`. -/
theorem c4_lerp_can_return_worse_crf :
    lerpOk 95 worseEq betterEq ∧
    vmaf_lerp_raw 95 worseEq betterEq = 20 ∧
    vmaf_lerp_crf 95 worseEq betterEq = 20 ∧
    worseEq.crf = 20 ∧ betterEq.crf + 1 = 11 ∧
    ¬(vmaf_lerp_crf 95 worseEq betterEq < worseEq.crf) := by
  have hraw : vmaf_lerp_raw 95 worseEq betterEq = 20 := by
    rw [vmaf_lerp_raw_eq (x := 20) (by norm_num [worseEq, betterEq]),
      roundHalfAway_nonneg_eq (n := 20) (by norm_num) (by norm_num)]
    rfl
  have hok : lerpOk 95 worseEq betterEq := by
    refine ⟨by norm_num [worseEq], by norm_num [worseEq, betterEq], by norm_num [worseEq, betterEq]⟩
  refine ⟨hok, hraw, ?_, rfl, rfl, ?_⟩
  · unfold vmaf_lerp_crf
    rw [hraw]
    rfl
  · unfold vmaf_lerp_crf
    rw [hraw]
    decide

/-- C4 (amended): under the interpolation precondition the returned
parameter is strictly greater than `better.crf` (never ≤, thanks to the
final clamp) and at most `worse.crf` — it may equal `worse.crf` even when
the clamp does not engage. -/
theorem c4_lerp_strict_above_better_at_most_worse (min_vmaf : ℚ)
    (w b : Sample) (h : lerpOk min_vmaf w b) (hw : w.crf ≤ 255) :
    b.crf < vmaf_lerp_crf min_vmaf w b ∧ vmaf_lerp_crf min_vmaf w b ≤ w.crf :=
  vmaf_lerp_crf_bounds h hw

/-- C4 witness: the amended bounds at the concrete endpoints. -/
theorem c4_lerp_strict_above_better_at_most_worse_witness :
    betterEq.crf < vmaf_lerp_crf 95 worseEq betterEq ∧
    vmaf_lerp_crf 95 worseEq betterEq ≤ worseEq.crf :=
  c4_lerp_strict_above_better_at_most_worse 95 worseEq betterEq (by decide) (by decide)

/-! ### Claim C5 -/

/-- C5: for every valid configuration the first issued probe samples the
u8 midpoint `((min_crf + max_crf) mod 256) / 2` of the bounds, with one
sample and a cleared `quick_3rd_run` flag. -/
theorem c5_first_probe_at_wrapped_midpoint (cfg : Cfg) (oracle : Oracle)
    (fuel : ℕ) (hcfg : cfg.min_crf ≤ cfg.max_crf) (hfuel : 1 ≤ fuel) :
    (search cfg oracle fuel).2.head? =
      some ⟨((cfg.min_crf + cfg.max_crf) % 256) / 2, 1, false⟩ := by
  obtain ⟨f, rfl⟩ : ∃ f, fuel = f + 1 := ⟨fuel - 1, by omega⟩
  unfold search
  rw [if_pos hcfg, searchGo_trace_head]
  have hsel : selectSamples cfg 1 (((cfg.min_crf + cfg.max_crf) % 256) / 2) false
      = (1, false) := by
    unfold selectSamples
    rw [if_pos (Or.inl rfl)]
  rw [hsel]

/-- C5 witness: the default 10..55 bounds give a first probe at crf 32. -/
theorem c5_first_probe_at_wrapped_midpoint_witness :
    (search cfgDefault oracleQuick 4).2.head? = some ⟨32, 1, false⟩ :=
  c5_first_probe_at_wrapped_midpoint cfgDefault oracleQuick 4 (by decide) (by decide)

/-! ### Claim C9 -/

theorem progress_div_facts {u u' T : ℚ} (hT : 0 < T) (huu : u ≤ u')
    (huT : u' ≤ T) : u * 1000 / T ≤ u' * 1000 / T ∧ u' * 1000 / T ≤ 1000 := by
  constructor
  · rw [div_le_div_iff₀ hT hT]
    nlinarith
  · rw [div_le_iff₀ hT]
    nlinarith

/-- C9: for every iteration index `run ≥ 1` and both flag values, the
progress estimate is monotonically non-decreasing in the probe fraction on
`[0, 1]` and never exceeds 1000. -/
theorem c9_progress_monotone_bounded (run : ℕ) (quick_flag : Bool) (p p' : ℚ)
    (hrun : 1 ≤ run) (hp0 : 0 ≤ p) (hpp : p ≤ p') (hp1 : p' ≤ 1) :
    guess_progress run p quick_flag ≤ guess_progress run p' quick_flag ∧
    guess_progress run p' quick_flag ≤ 1000 := by
  have hp'0 : 0 ≤ p' := le_trans hp0 hpp
  unfold guess_progress guess_total_samples
  by_cases h4 : run ≤ 4
  · interval_cases run <;> cases quick_flag <;> norm_num <;>
      constructor <;> linarith
  · have h5 : 5 ≤ run := by omega
    have h1 : ¬(run = 1) := by omega
    have h2 : ¬(run = 2) := by omega
    have h14 : ¬(1 ≤ run ∧ run ≤ 4) := by omega
    have e1 : ((run - 4 : ℕ) : ℚ) = (run : ℚ) - 4 := by
      push_cast [Nat.cast_sub (show 4 ≤ run by omega)]
      ring
    have e2 : ((run - 3 : ℕ) : ℚ) = (run : ℚ) - 3 := by
      push_cast [Nat.cast_sub (show 3 ≤ run by omega)]
      ring
    have e3 : ((run - 2 : ℕ) : ℚ) = (run : ℚ) - 2 := by
      push_cast [Nat.cast_sub (show 2 ≤ run by omega)]
      ring
    have hrq : (5 : ℚ) ≤ (run : ℚ) := by exact_mod_cast h5
    cases quick_flag
    · have h3 : ¬(run = 3 ∧ false = true) := fun hc => Bool.false_ne_true hc.2
      simp only [if_neg h1, if_neg h2, if_neg h3, if_neg Bool.false_ne_true,
        if_neg h14]
      push_cast [e2, e3]
      exact progress_div_facts (by linarith) (by linarith) (by linarith)
    · have h3 : ¬(run = 3) := by omega
      simp only [eq_self_iff_true, and_true, if_true, if_neg h1, if_neg h2,
        if_neg h3, if_neg h14]
      push_cast [e1, e2]
      exact progress_div_facts (by linarith) (by linarith) (by linarith)

/-- C9 witness: monotone step and bound at iteration 3 with the quick
flag, probe fractions 1/2 and 3/4. -/
theorem c9_progress_monotone_bounded_witness :
    guess_progress 3 (1/2) true ≤ guess_progress 3 (3/4) true ∧
    guess_progress 3 (3/4) true ≤ 1000 :=
  c9_progress_monotone_bounded 3 true (1/2) (3/4) (by norm_num) (by norm_num)
    (by norm_num) (by norm_num)

/-! ### Claim C7 -/

/-- C7: in any iteration whose probe misses the quality target, if the
predicted size percent exceeds the budget or the candidate sits at
`min_crf`, the search ends at once with the infeasibility outcome carrying
that attempt, issues no further probes, and that outcome is a different
constructor from a probe failure. -/
theorem c7_infeasible_aborts (cfg : Cfg) (oracle : Oracle)
    (fuel run crf0 : ℕ) (attempts : List Sample) (quick : Bool) (enc : Output)
    (horacle : oracle run = Except.ok enc)
    (hunmet : enc.vmaf ≤ cfg.min_vmaf)
    (hbad : cfg.max_encoded_percent < enc.predicted_encode_percent ∨
      crf0 = cfg.min_crf) :
    searchGo cfg oracle (fuel + 1) run crf0 attempts quick =
      (some (Outcome.infeasible ⟨enc, crf0, (selectSamples cfg run crf0 quick).1⟩),
        [⟨crf0, (selectSamples cfg run crf0 quick).1,
          (selectSamples cfg run crf0 quick).2⟩]) ∧
    (∀ s : Sample, Outcome.infeasible s ≠ Outcome.probeError) := by
  refine ⟨?_, fun s h => Outcome.noConfusion h⟩
  have hdec : searchDecide cfg run
      (attempts ++ [⟨enc, crf0, (selectSamples cfg run crf0 quick).1⟩])
      ⟨enc, crf0, (selectSamples cfg run crf0 quick).1⟩ =
      Decision.giveUp ⟨enc, crf0, (selectSamples cfg run crf0 quick).1⟩ := by
    unfold searchDecide decideUnmet
    rw [if_neg (not_lt.mpr hunmet), if_pos hbad]
  unfold searchGo
  rw [horacle]
  simp only [hdec]

/-- C7 witness: a size-busting quality miss at the midpoint of the default
bounds aborts with the infeasibility outcome after that single probe. -/
theorem c7_infeasible_aborts_witness :
    searchGo cfgDefault (fun _ => Except.ok ⟨90, 0, 95, 0⟩) 5 1 32 [] false =
      (some (Outcome.infeasible ⟨⟨90, 0, 95, 0⟩, 32, 1⟩), [⟨32, 1, false⟩]) :=
  ((c7_infeasible_aborts cfgDefault (fun _ => Except.ok ⟨90, 0, 95, 0⟩) 4 1 32 []
    false ⟨90, 0, 95, 0⟩ rfl (by decide) (Or.inl (by decide))).1)

/-! ### Claim C8 -/

/-- C8: an inverted bound configuration fails with the configuration error
before any probe is issued — the probe trace is empty. -/
theorem c8_config_error_zero_probes (cfg : Cfg) (oracle : Oracle) (fuel : ℕ)
    (h : cfg.max_crf < cfg.min_crf) :
    search cfg oracle fuel = (some Outcome.configError, []) := by
  unfold search
  rw [if_neg (by omega)]

/-- C8 witness: bounds 55 > 10 inverted. -/
theorem c8_config_error_zero_probes_witness :
    search ⟨95, 80, 55, 10, 3⟩ oracleQuick 7 = (some Outcome.configError, []) :=
  c8_config_error_zero_probes ⟨95, 80, 55, 10, 3⟩ oracleQuick 7 (by decide)

end CrfSearch
